import Mathlib

/-!
Verification of the flowserv template-resolution and execution engine
against its natural-language specification.  The engine itself is not part
of the visible corpus; following the specification (§2-§7) we build a
shallow embedding of the template model, parameter binder, template
expander, run controller, post-processing trigger and result extractor.
Concrete templates (the Hello-World benchmark) are translated from the
template documents in the repository.
-/

namespace Flowserv

/-- Modelled from the spec (§4.3, design note on placeholder grammars): a
command string is an abstract syntax tree of literal text and
command-variable references `${name}`. -/
inductive CmdTok where
  | lit (s : String)
  | var (name : String)
deriving DecidableEq

/-- Modelled from the spec (§3): a workflow step has an execution
environment identifier and an ordered list of command strings containing
unresolved placeholders. -/
structure Step where
  environment : String
  commands : List (List CmdTok)
deriving DecidableEq

/-- Modelled from the spec (§3): parameter data types. -/
inductive Dtype where
  | file
  | int
  | float
  | string
  | bool
  | actor
deriving DecidableEq

/-- Modelled from the spec (§3, §4.2): argument and parameter values.  An
actor value holds a nested step specification (image and command list). -/
inductive Value where
  | vint (n : Int)
  | vfloat (q : Rat)
  | vstr (s : String)
  | vbool (b : Bool)
  | vfile (path : String)
  | vactor (s : Step)
deriving DecidableEq

/-- Modelled from the spec (§4.3): an entry of an input-file list or of the
command-variable binding table is either a literal string or a parameter
reference `$[[name]]`. -/
inductive TRef where
  | lit (s : String)
  | pref (name : String)
deriving DecidableEq

/-- Modelled from the spec (§3, design note on actor parameters): a slot of
the template's step list is either a fixed step or an actor-parameter
reference replaced wholesale at expansion time. -/
inductive StepSlot where
  | fixed (s : Step)
  | actorRef (name : String)
deriving DecidableEq

/-- Modelled from the spec (§3): a declared template parameter. -/
structure ParameterDeclaration where
  name : String
  label : String
  dtype : Dtype
  defaultValue : Option Value := none
  target : Option String := none
  group : Option String := none
  index : Nat := 0
deriving DecidableEq

/-- Modelled from the spec (§3): a column of the result schema, with a
locator path into the result document and a required flag. -/
structure ResultColumn where
  name : String
  label : String
  dtype : Dtype
  locator : List String
  required : Bool := true
deriving DecidableEq

/-- Modelled from the spec (§3, §6): one entry of the schema's `orderBy`
ordering rule. -/
structure SortCol where
  name : String
  sortDesc : Bool
deriving DecidableEq

/-- Modelled from the spec (§3): the declared result schema. -/
structure ResultSchema where
  file : String
  schema : List ResultColumn
  orderBy : List SortCol
deriving DecidableEq

/-- Modelled from the spec (§3): the post-processing sub-workflow. -/
structure PostProcTemplate where
  steps : List StepSlot
  inputs : List String
deriving DecidableEq

/-- Modelled from the spec (§3, §6): the parsed workflow template.
`varBindings` is the template's `workflow.inputs.parameters` table mapping
command-variable names to literals or parameter references. -/
structure WorkflowTemplate where
  steps : List StepSlot
  inputFiles : List TRef
  varBindings : List (String × TRef)
  parameters : List ParameterDeclaration
  outputs : List String
  postproc : Option PostProcTemplate := none
  resultSchema : Option ResultSchema := none
deriving DecidableEq

/-- Modelled from the spec (§7): the error taxonomy. -/
inductive EngineError where
  | templateFormat (msg : String)
  | missingParameter (name : String)
  | typeMismatch (name : String)
  | unresolvedReference (name : String)
  | unknownWorker (env : String)
  | stepExecution (exitCode : Int) (stdout : List String) (stderr : List String)
  | missingOutput (path : String)
  | schemaExtraction (column : String)
deriving DecidableEq

/-- Association-list lookup by string key (first match wins). -/
def lookupStr {α : Type} (key : String) : List (String × α) → Option α
  | [] => none
  | (k, v) :: rest => if k = key then some v else lookupStr key rest

/-- Modelled from the spec (§4.2): a supplied scalar value must be coercible
to the declared type.  Numeric values coerce across int/float (an int
parameter truncates a fractional value toward zero), matching the caller
evidence in the repository's example notebooks. -/
def coerce (dt : Dtype) (v : Value) : Option Value :=
  match dt, v with
  | .int, .vint n => some (.vint n)
  | .int, .vfloat q => some (.vint (q.num / (q.den : Int)))
  | .float, .vfloat q => some (.vfloat q)
  | .float, .vint n => some (.vfloat (n : Rat))
  | .string, .vstr s => some (.vstr s)
  | .bool, .vbool b => some (.vbool b)
  | .file, .vfile p => some (.vfile p)
  | .actor, .vactor s => some (.vactor s)
  | _, _ => none

/-- Modelled from the spec (§4.3): a resolved value is substituted as
literal text into file paths and command strings. -/
def Value.render : Value → String
  | .vint n => toString n
  | .vfloat q => toString q
  | .vstr s => s
  | .vbool b => toString b
  | .vfile p => p
  | .vactor _ => ""

/-- Modelled from the spec (§4.2): a file-type value is copied to the
declared target path, so the bound value for a file parameter is its
target path in the working directory. -/
def resolveFileTarget (p : ParameterDeclaration) (v : Value) : Value :=
  match p.dtype, p.target with
  | .file, some t => .vfile t
  | _, _ => v

/-- Modelled from the spec (§4.2, §7): scan the declared parameters, in
declaration order, for one that is absent from the user arguments and has
no declared default value. -/
def firstMissingParam (args : List (String × Value)) :
    List ParameterDeclaration → Option String
  | [] => none
  | p :: rest =>
    if lookupStr p.name args = none ∧ p.defaultValue = none then some p.name
    else firstMissingParam args rest

/-- Modelled from the spec (§4.2): for each declared parameter, validate the
supplied value against the declared type, or substitute the default. -/
def bindParams (args : List (String × Value)) :
    List ParameterDeclaration → Except EngineError (List (String × Value))
  | [] => .ok []
  | p :: rest =>
    match lookupStr p.name args with
    | some v =>
      match coerce p.dtype v with
      | some v' =>
        Except.map (fun env => (p.name, resolveFileTarget p v') :: env) (bindParams args rest)
      | none => .error (.typeMismatch p.name)
    | none =>
      match p.defaultValue with
      | some d => Except.map (fun env => (p.name, d) :: env) (bindParams args rest)
      | none => .error (.missingParameter p.name)

/-- Modelled from the spec (§4.2, §7): `bind(template, user_args)` produces
a fully-resolved parameter environment, failing with `MissingParameterError`
when a declared parameter is absent with no default, and with
`TypeMismatchError` when a supplied value does not validate. -/
def bind (T : WorkflowTemplate) (args : List (String × Value)) :
    Except EngineError (List (String × Value)) :=
  match firstMissingParam args T.parameters with
  | some nm => .error (.missingParameter nm)
  | none => bindParams args T.parameters

/-- Map a fallible function over a list, stopping at the first error. -/
def mapExcept {α β : Type} (f : α → Except EngineError β) :
    List α → Except EngineError (List β)
  | [] => .ok []
  | a :: rest =>
    match f a with
    | .ok b => Except.map (fun bs => b :: bs) (mapExcept f rest)
    | .error e => .error e

/-- Modelled from the spec (§4.3): pass 1 resolves a parameter reference
`$[[name]]` against the bound parameter environment, substituting the
literal resolved value; an unresolved reference fails. -/
def resolveTRef (env : List (String × Value)) : TRef → Except EngineError String
  | .lit s => .ok s
  | .pref n =>
    match lookupStr n env with
    | some v => .ok v.render
    | none => .error (.unresolvedReference n)

/-- Modelled from the spec (§4.3, design note on actor parameters): pass 1
resolves an actor-parameter slot of the step list against the environment,
replacing it with the resolved step fragment wholesale. -/
def resolveSlot (env : List (String × Value)) : StepSlot → Except EngineError Step
  | .fixed s => .ok s
  | .actorRef n =>
    match lookupStr n env with
    | some (.vactor s) => .ok s
    | some _ => .error (.typeMismatch n)
    | none => .error (.unresolvedReference n)

/-- A concrete, executable step: environment identifier and literal
command strings. -/
structure ConcreteStep where
  environment : String
  commands : List String
deriving DecidableEq

/-- The result of expansion: the concrete step sequence together with the
resolved input file paths staged into the working directory. -/
structure ExecutableWorkflow where
  steps : List ConcreteStep
  inputFiles : List String
deriving DecidableEq

/-- Modelled from the spec (§4.3): pass 2 substitutes command-variable
references `${name}` with the literal resolved value from the variable
environment; a reference with no matching entry fails with
`UnresolvedReferenceError`. -/
def substToks (venv : List (String × String)) : List CmdTok → Except EngineError String
  | [] => .ok ""
  | .lit s :: rest => Except.map (fun t => s ++ t) (substToks venv rest)
  | .var n :: rest =>
    match lookupStr n venv with
    | some v => Except.map (fun t => v ++ t) (substToks venv rest)
    | none => .error (.unresolvedReference n)

/-- Modelled from the spec (§4.3, §6): the command-variable environment is
built from worker-provided variables, the template's variable binding table
(with parameter references resolved), and the bound parameters themselves
rendered as literal text. -/
def buildVarEnv (T : WorkflowTemplate) (env : List (String × Value))
    (workerVars : List (String × String)) :
    Except EngineError (List (String × String)) :=
  Except.map
    (fun bs => workerVars ++ bs ++ env.map (fun kv => (kv.1, kv.2.render)))
    (mapExcept
      (fun kv : String × TRef => Except.map (fun s => (kv.1, s)) (resolveTRef env kv.2))
      T.varBindings)

/-- Substitute all command-variable references of a single step. -/
def expandStep (venv : List (String × String)) (s : Step) :
    Except EngineError ConcreteStep :=
  Except.map (fun cs => { environment := s.environment, commands := cs })
    (mapExcept (substToks venv) s.commands)

/-- Modelled from the spec (§4.3): `expand(template, environment)` resolves
the two placeholder grammars in order — parameter references first (step
slots, variable bindings, input files), then command-variable references —
producing the concrete executable step sequence. -/
def expand (T : WorkflowTemplate) (env : List (String × Value))
    (workerVars : List (String × String)) :
    Except EngineError ExecutableWorkflow :=
  match mapExcept (resolveSlot env) T.steps with
  | .error e => .error e
  | .ok steps =>
    match buildVarEnv T env workerVars with
    | .error e => .error e
    | .ok venv =>
      match mapExcept (expandStep venv) steps with
      | .error e => .error e
      | .ok csteps =>
        match mapExcept (resolveTRef env) T.inputFiles with
        | .error e => .error e
        | .ok ins => .ok { steps := csteps, inputFiles := ins }

/-- Binding followed by expansion, as invoked when a run is started. -/
def bindAndExpand (T : WorkflowTemplate) (args : List (String × Value))
    (workerVars : List (String × String)) :
    Except EngineError ExecutableWorkflow :=
  match Flowserv.bind T args with
  | .error e => .error e
  | .ok env => expand T env workerVars

/-- Modelled from the spec (§5): the only engine-level mutable state shared
across runs is the counter used to allocate run identifiers. -/
structure EngineState where
  nextRunId : Nat
deriving DecidableEq

/-- One invocation of bind-then-expand through the shared engine state: it
returns the expansion result and the updated state (a fresh run id was
allocated). -/
def bindAndExpandS (st : EngineState) (T : WorkflowTemplate)
    (args : List (String × Value)) (workerVars : List (String × String)) :
    Except EngineError ExecutableWorkflow × EngineState :=
  (bindAndExpand T args workerVars, { nextRunId := st.nextRunId + 1 })

/-- Modelled from the spec (§4.4): the observable behaviour of one worker
invocation — exit code, captured output streams, and the files it produced
in the working directory. -/
structure StepOutcome where
  exitCode : Int
  stdout : List String
  stderr : List String
  produced : List String
deriving DecidableEq

/-- Modelled from the spec (§4.5): run states. -/
inductive RunState where
  | pending
  | running
  | success
  | error (e : EngineError)
  | canceled
deriving DecidableEq

/-- A run state is terminal when it is `SUCCESS`, `ERROR` or `CANCELED`. -/
def RunState.isTerminal : RunState → Bool
  | .success | .error _ | .canceled => true
  | _ => false

/-- The trace of sequential step execution: indices of the steps that ran
(in order), the final working-directory contents, and the failing step's
index and outcome when one failed. -/
structure ExecTrace where
  executed : List Nat
  fs : List String
  failure : Option (Nat × StepOutcome)
deriving DecidableEq

/-- Modelled from the spec (§4.5): steps run strictly sequentially in
declared order; on the first non-zero exit, execution stops immediately and
no later step runs.  Files already produced are kept (no rollback). -/
def runStepsFrom (outcome : Nat → StepOutcome) :
    Nat → List String → List ConcreteStep → ExecTrace
  | _, fs, [] => { executed := [], fs := fs, failure := none }
  | i, fs, _ :: rest =>
    if (outcome i).exitCode = 0 then
      let t := runStepsFrom outcome (i + 1) (fs ++ (outcome i).produced) rest
      { executed := i :: t.executed, fs := t.fs, failure := t.failure }
    else
      { executed := [i], fs := fs ++ (outcome i).produced,
        failure := some (i, outcome i) }

/-- First declared output file that is absent from the working directory. -/
def firstMissingOutput (fs : List String) : List String → Option String
  | [] => none
  | p :: rest => if p ∈ fs then firstMissingOutput fs rest else some p

/-- An extracted result record: for each schema column, its name and the
extracted value (`none` is the explicit absent value of an optional
column whose locator is missing). -/
abbrev Record : Type := List (String × Option Value)

/-- Modelled from the spec (§3, §6): the observable handle of a run — its
terminal state, the indices of the executed steps, the working-directory
contents, the produced output file listing, run-level warnings, and the
optional extracted result record. -/
structure RunResult where
  state : RunState
  executed : List Nat
  fs : List String
  files : List String
  warnings : List EngineError
  result : Option Record
deriving DecidableEq

/-- Modelled from the spec (§4.5): execute an expanded workflow's steps and
derive the run's terminal state.  A step failure yields
`ERROR (StepExecutionError)` with the step's stdout/stderr preserved; all
steps exiting zero with a declared output missing yields
`ERROR (MissingOutputError)`; otherwise the run is `SUCCESS` and its file
listing is the template's declared outputs. -/
def finishRun (T : WorkflowTemplate) (outcome : Nat → StepOutcome)
    (ew : ExecutableWorkflow) : RunResult :=
  match (runStepsFrom outcome 0 ew.inputFiles ew.steps).failure with
  | some io =>
    { state := .error (.stepExecution io.2.exitCode io.2.stdout io.2.stderr),
      executed := (runStepsFrom outcome 0 ew.inputFiles ew.steps).executed,
      fs := (runStepsFrom outcome 0 ew.inputFiles ew.steps).fs, files := [],
      warnings := [], result := none }
  | none =>
    match firstMissingOutput (runStepsFrom outcome 0 ew.inputFiles ew.steps).fs T.outputs with
    | some p =>
      { state := .error (.missingOutput p),
        executed := (runStepsFrom outcome 0 ew.inputFiles ew.steps).executed,
        fs := (runStepsFrom outcome 0 ew.inputFiles ew.steps).fs, files := [],
        warnings := [], result := none }
    | none =>
      { state := .success,
        executed := (runStepsFrom outcome 0 ew.inputFiles ew.steps).executed,
        fs := (runStepsFrom outcome 0 ew.inputFiles ew.steps).fs,
        files := T.outputs, warnings := [], result := none }

/-- Modelled from the spec (§4.5, §7): starting a run.  Validation errors
(binding, expansion) are raised synchronously to the caller before any run
state is committed; execution-time failures are captured in the run's
terminal state. -/
def startRun (T : WorkflowTemplate) (args : List (String × Value))
    (workerVars : List (String × String)) (outcome : Nat → StepOutcome) :
    Except EngineError RunResult :=
  Except.map (finishRun T outcome) (bindAndExpand T args workerVars)

/-- The steps executed on behalf of a start-run request: none when the
request was rejected before run state was committed. -/
def stepsExecuted (T : WorkflowTemplate) (args : List (String × Value))
    (workerVars : List (String × String)) (outcome : Nat → StepOutcome) :
    List Nat :=
  match startRun T args workerVars outcome with
  | .error _ => []
  | .ok r => r.executed

/-- A run as recorded by the controller: identity and current state. -/
structure SysRun where
  runId : Nat
  state : RunState
deriving DecidableEq

/-- Modelled from the spec (§4.5, §5): the controller-level view of a
workflow with a configured post-processing template — the recorded runs,
the dependency set of the post-processing run, whether the post-processing
run has been started, and its handle once started. -/
structure SysState where
  runs : List SysRun
  postprocDeps : List Nat
  postprocStarted : Bool
  postprocRun : Option RunResult
deriving DecidableEq

/-- Find a recorded run by identifier. -/
def findRun (rs : List SysRun) (i : Nat) : Option SysRun :=
  rs.find? (fun r => r.runId == i)

/-- Every run in the post-processing dependency set has reached a terminal
state. -/
def depsTerminal (s : SysState) : Bool :=
  s.postprocDeps.all (fun i =>
    match findRun s.runs i with
    | some r => r.state.isTerminal
    | none => false)

/-- Modelled from the spec (§4.5, §5): the controller starts the
post-processing run only when ignore-postproc was not requested and every
run in its dependency set has reached a terminal state; the post-processing
run executes independently and the recorded runs (including every
dependency run and the triggering run) are left untouched. -/
def postprocStep (s : SysState) (ignorePostproc : Bool) (T : WorkflowTemplate)
    (args : List (String × Value)) (workerVars : List (String × String))
    (outcome : Nat → StepOutcome) : SysState :=
  if ignorePostproc then s
  else if s.postprocStarted then s
  else if depsTerminal s then
    match startRun T args workerVars outcome with
    | .ok r => { s with postprocStarted := true, postprocRun := some r }
    | .error _ => { s with postprocStarted := true, postprocRun := none }
  else s

/-- Modelled from the spec (§4.6): a structured result document (the
designated result file after parsing). -/
inductive Doc where
  | leaf (v : Value)
  | node (entries : List (String × Doc))

/-- Modelled from the spec (§4.6): follow a column locator into the
document structure. -/
def lookupDoc : Doc → List String → Option Value
  | .leaf v, [] => some v
  | .leaf _, _ :: _ => none
  | .node _, [] => none
  | .node es, k :: rest =>
    match lookupStr k es with
    | some d => lookupDoc d rest
    | none => none

/-- Modelled from the spec (§4.6): `extract(resultSchema, workingDir)`
follows each column's locator into the result document; a missing locator
on a required column fails with `SchemaExtractionError`, and on an optional
column yields the explicit absent value. -/
def extract (cols : List ResultColumn) (doc : Doc) : Except EngineError Record :=
  match cols with
  | [] => .ok []
  | c :: rest =>
    match lookupDoc doc c.locator with
    | some v => Except.map (fun r : Record => (c.name, some v) :: r) (extract rest doc)
    | none =>
      if c.required then .error (.schemaExtraction c.name)
      else Except.map (fun r : Record => (c.name, none) :: r) (extract rest doc)

/-- Modelled from the spec (§4.6, §7): extraction is invoked only on a
successful run; an extraction failure is attached to the run as a run-level
warning and never changes the run's terminal state. -/
def applyExtraction (r : RunResult) (cols : List ResultColumn) (doc : Doc) :
    RunResult :=
  if r.state = RunState.success then
    match extract cols doc with
    | .ok rec => { r with result := some rec }
    | .error e => { r with warnings := r.warnings ++ [e] }
  else r

/-- Constructor tag used to compare values of different types. -/
def Value.tag : Value → Nat
  | .vint _ => 0
  | .vfloat _ => 0
  | .vstr _ => 1
  | .vbool _ => 2
  | .vfile _ => 3
  | .vactor _ => 4

/-- Numeric comparison key: int and float values compare numerically. -/
def Value.numKey : Value → Rat
  | .vint n => (n : Rat)
  | .vfloat q => q
  | _ => 0

/-- Textual comparison key. -/
def Value.strKey : Value → String
  | .vstr s => s
  | .vfile p => p
  | _ => ""

/-- Boolean comparison key. -/
def Value.boolKey : Value → Bool
  | .vbool b => b
  | _ => false

/-- Modelled from the spec (§4.6): a total comparison on result values,
comparing numerically across int/float and lexicographically on text. -/
def cmpValue : Value → Value → Ordering :=
  compareLex (Ordering.byKey Value.tag compare)
    (compareLex (Ordering.byKey Value.numKey compare)
      (compareLex (Ordering.byKey Value.strKey compare)
        (Ordering.byKey Value.boolKey compare)))

/-- Comparison on optional column values: an absent value sorts before any
present value. -/
def cmpOptValue : Option Value → Option Value → Ordering
  | none, none => .eq
  | none, some _ => .lt
  | some _, none => .gt
  | some a, some b => cmpValue a b

/-- The value a record holds for a named column. -/
def getCol (r : Record) (name : String) : Option Value :=
  match lookupStr name r with
  | some ov => ov
  | none => none

/-- Modelled from the spec (§4.6): compare two records on one sort column,
respecting the column's declared ascending/descending direction. -/
def colCmp (c : SortCol) (r1 r2 : Record) : Ordering :=
  if c.sortDesc then cmpOptValue (getCol r2 c.name) (getCol r1 c.name)
  else cmpOptValue (getCol r1 c.name) (getCol r2 c.name)

/-- Modelled from the spec (§4.6): lexicographic comparison of records by
the schema's declared sort columns — the first column is the primary key
and each subsequent column breaks ties among records equal on all earlier
columns. -/
def cmpRecords (cols : List SortCol) (r1 r2 : Record) : Ordering :=
  match cols with
  | [] => .eq
  | c :: rest => (colCmp c r1 r2).then (cmpRecords rest r1 r2)

/-- The ranking order induced by the sort columns. -/
def rankRel (cols : List SortCol) (r1 r2 : Record) : Prop :=
  cmpRecords cols r1 r2 ≠ Ordering.gt

instance rankRelDecidable (cols : List SortCol) : DecidableRel (rankRel cols) :=
  fun r1 r2 => decidable_of_iff (cmpRecords cols r1 r2 ≠ Ordering.gt) Iff.rfl

/-- Modelled from the spec (§4.6): rank a list of extracted result records
according to the schema's declared sort columns. -/
def rank (cols : List SortCol) (rs : List Record) : List Record :=
  List.insertionSort (rankRel cols) rs

/-- The Hello-World benchmark template, translated from
`tests/.files/benchmark/helloworld/benchmark-with-outputs.yaml`. -/
def helloworld : WorkflowTemplate where
  steps :=
    [ .fixed
        { environment := "python:3.7",
          commands :=
            [ [ .var "python", .lit " code/helloworld.py --inputfile \"",
                .var "inputfile", .lit "\" --outputfile \"", .var "outputfile",
                .lit "\" --sleeptime ", .var "sleeptime", .lit " --greeting ",
                .var "greeting" ],
              [ .var "python", .lit " code/analyze.py --inputfile \"",
                .var "outputfile",
                .lit "\" --outputfile results/analytics.json" ] ] } ]
  inputFiles := [ .lit "code/analyze.py", .lit "code/helloworld.py", .pref "names" ]
  varBindings :=
    [ ("inputfile", .pref "names"), ("outputfile", .lit "results/greetings.txt"),
      ("sleeptime", .pref "sleeptime"), ("greeting", .pref "greeting") ]
  parameters :=
    [ { name := "names", label := "Input file", dtype := .file,
        target := some "data/names.txt" },
      { name := "sleeptime", label := "Sleep time (s)", dtype := .int,
        defaultValue := some (.vint 10) },
      { name := "greeting", label := "Greeting", dtype := .string,
        defaultValue := some (.vstr "Hello") } ]
  outputs := [ "results/greetings.txt", "results/analytics.json" ]
  resultSchema := some
    { file := "results/analytics.json",
      schema :=
        [ { name := "avg_count", label := "Avg. Characters per Line",
            dtype := .float, locator := ["avg_count"] },
          { name := "max_len", label := "Max. Output Line Length",
            dtype := .float, locator := ["max_len"] },
          { name := "max_line", label := "Longest Output Line",
            dtype := .string, locator := ["max_line"], required := false } ],
      orderBy := [] }

/-- The arguments of the notebook's Hello-World run: a names stream, the
greeting `"Hey there"` and an integer sleep time. -/
def hwArgs : List (String × Value) :=
  [ ("greeting", .vstr "Hey there"), ("sleeptime", .vint 2),
    ("names", .vfile "names-upload") ]

/-- The arguments of the post-processing notebook's runs, where the
`sleeptime` argument is the non-integer numeric value `0.2`. -/
def hwArgsFloat : List (String × Value) :=
  [ ("greeting", .vstr "Hey there"), ("sleeptime", .vfloat (mkRat 1 5)),
    ("names", .vfile "names-upload") ]

/-- Worker-provided command variables (the worker maps `${python}` to its
interpreter). -/
def hwVars : List (String × String) := [ ("python", "python") ]

/-- A benign worker behaviour: the single Hello-World step exits zero and
produces both declared output files. -/
def hwOutcome : Nat → StepOutcome := fun _ =>
  { exitCode := 0, stdout := [], stderr := [],
    produced := [ "results/greetings.txt", "results/analytics.json" ] }

/-- A failing worker behaviour: the step exits with code 1, writing
diagnostics and a partial output file. -/
def hwFailOutcome : Nat → StepOutcome := fun _ =>
  { exitCode := 1, stdout := ["traceback"], stderr := ["boom"],
    produced := [ "results/greetings.txt" ] }

/-- A worker behaviour that exits zero but fails to produce the second
declared output. -/
def hwNoOutputOutcome : Nat → StepOutcome := fun _ =>
  { exitCode := 0, stdout := [], stderr := [],
    produced := [ "results/greetings.txt" ] }

/-- The `orderBy` ordering rule of the top-tagger benchmark template
(`mean_accuracy` descending, then `mean_auc` descending). -/
def taggerOrderBy : List SortCol :=
  [ { name := "mean_accuracy", sortDesc := true },
    { name := "mean_auc", sortDesc := true } ]

theorem runStepsFrom_cons_zero (outcome : Nat → StepOutcome) (i : Nat)
    (fs : List String) (s : ConcreteStep) (rest : List ConcreteStep)
    (h : (outcome i).exitCode = 0) :
    runStepsFrom outcome i fs (s :: rest) =
      { executed := i :: (runStepsFrom outcome (i + 1) (fs ++ (outcome i).produced) rest).executed,
        fs := (runStepsFrom outcome (i + 1) (fs ++ (outcome i).produced) rest).fs,
        failure := (runStepsFrom outcome (i + 1) (fs ++ (outcome i).produced) rest).failure } := by
  simp [runStepsFrom, h]

theorem runStepsFrom_cons_fail (outcome : Nat → StepOutcome) (i : Nat)
    (fs : List String) (s : ConcreteStep) (rest : List ConcreteStep)
    (h : ¬(outcome i).exitCode = 0) :
    runStepsFrom outcome i fs (s :: rest) =
      { executed := [i], fs := fs ++ (outcome i).produced,
        failure := some (i, outcome i) } := by
  simp [runStepsFrom, h]

theorem runStepsFrom_fs_mono (outcome : Nat → StepOutcome) :
    ∀ (steps : List ConcreteStep) (i : Nat) (fs : List String),
      fs ⊆ (runStepsFrom outcome i fs steps).fs := by
  intro steps
  induction steps with
  | nil => intro i fs; exact fun a ha => ha
  | cons s rest ih =>
    intro i fs
    by_cases h : (outcome i).exitCode = 0
    · rw [runStepsFrom_cons_zero outcome i fs s rest h]
      exact fun a ha =>
        ih (i + 1) (fs ++ (outcome i).produced) (List.mem_append_left _ ha)
    · rw [runStepsFrom_cons_fail outcome i fs s rest h]
      exact fun a ha => List.mem_append_left _ ha

theorem runStepsFrom_executed_lb (outcome : Nat → StepOutcome) :
    ∀ (steps : List ConcreteStep) (i : Nat) (fs : List String),
      ∀ j ∈ (runStepsFrom outcome i fs steps).executed, i ≤ j := by
  intro steps
  induction steps with
  | nil => intro i fs j hj; simp [runStepsFrom] at hj
  | cons s rest ih =>
    intro i fs j hj
    by_cases h : (outcome i).exitCode = 0
    · rw [runStepsFrom_cons_zero outcome i fs s rest h] at hj
      rcases List.mem_cons.mp hj with rfl | hj
      · exact Nat.le_refl j
      · exact Nat.le_of_succ_le (ih (i + 1) (fs ++ (outcome i).produced) j hj)
    · rw [runStepsFrom_cons_fail outcome i fs s rest h] at hj
      rcases List.mem_cons.mp hj with rfl | hj
      · exact Nat.le_refl j
      · simp at hj

theorem runStepsFrom_nodup (outcome : Nat → StepOutcome) :
    ∀ (steps : List ConcreteStep) (i : Nat) (fs : List String),
      (runStepsFrom outcome i fs steps).executed.Nodup := by
  intro steps
  induction steps with
  | nil => intro i fs; simp [runStepsFrom]
  | cons s rest ih =>
    intro i fs
    by_cases h : (outcome i).exitCode = 0
    · rw [runStepsFrom_cons_zero outcome i fs s rest h]
      refine List.nodup_cons.mpr ⟨fun hmem => ?_, ih (i + 1) _⟩
      have := runStepsFrom_executed_lb outcome rest (i + 1)
        (fs ++ (outcome i).produced) i hmem
      omega
    · rw [runStepsFrom_cons_fail outcome i fs s rest h]
      simp

theorem runStepsFrom_produced (outcome : Nat → StepOutcome) :
    ∀ (steps : List ConcreteStep) (i : Nat) (fs : List String),
      ∀ j ∈ (runStepsFrom outcome i fs steps).executed,
        (outcome j).produced ⊆ (runStepsFrom outcome i fs steps).fs := by
  intro steps
  induction steps with
  | nil => intro i fs j hj; simp [runStepsFrom] at hj
  | cons s rest ih =>
    intro i fs j hj
    by_cases h : (outcome i).exitCode = 0
    · rw [runStepsFrom_cons_zero outcome i fs s rest h] at hj ⊢
      rcases List.mem_cons.mp hj with rfl | hj
      · exact fun a ha =>
          runStepsFrom_fs_mono outcome rest (j + 1) (fs ++ (outcome j).produced)
            (List.mem_append_right _ ha)
      · exact ih (i + 1) (fs ++ (outcome i).produced) j hj
    · rw [runStepsFrom_cons_fail outcome i fs s rest h] at hj ⊢
      rcases List.mem_cons.mp hj with rfl | hj
      · exact fun a ha => List.mem_append_right _ ha
      · simp at hj

theorem runStepsFrom_failure_none (outcome : Nat → StepOutcome) :
    ∀ (steps : List ConcreteStep) (i : Nat) (fs : List String),
      (runStepsFrom outcome i fs steps).failure = none →
        (∀ j ∈ (runStepsFrom outcome i fs steps).executed, (outcome j).exitCode = 0) ∧
        (runStepsFrom outcome i fs steps).executed.length = steps.length := by
  intro steps
  induction steps with
  | nil => intro i fs _; simp [runStepsFrom]
  | cons s rest ih =>
    intro i fs hf
    by_cases h : (outcome i).exitCode = 0
    · rw [runStepsFrom_cons_zero outcome i fs s rest h] at hf ⊢
      have := ih (i + 1) (fs ++ (outcome i).produced) hf
      refine ⟨fun j hj => ?_, by simpa using this.2⟩
      rcases List.mem_cons.mp hj with rfl | hj
      · exact h
      · exact this.1 j hj
    · rw [runStepsFrom_cons_fail outcome i fs s rest h] at hf
      simp at hf

theorem runStepsFrom_failure_some (outcome : Nat → StepOutcome) :
    ∀ (steps : List ConcreteStep) (i : Nat) (fs : List String) (j : Nat) (o : StepOutcome),
      (runStepsFrom outcome i fs steps).failure = some (j, o) →
        o = outcome j ∧ (outcome j).exitCode ≠ 0 ∧
        j ∈ (runStepsFrom outcome i fs steps).executed ∧
        (∀ k ∈ (runStepsFrom outcome i fs steps).executed, k ≤ j) ∧
        (∀ k ∈ (runStepsFrom outcome i fs steps).executed, k ≠ j →
          (outcome k).exitCode = 0) := by
  intro steps
  induction steps with
  | nil => intro i fs j o hf; simp [runStepsFrom] at hf
  | cons s rest ih =>
    intro i fs j o hf
    by_cases h : (outcome i).exitCode = 0
    · rw [runStepsFrom_cons_zero outcome i fs s rest h] at hf ⊢
      have := ih (i + 1) (fs ++ (outcome i).produced) j o hf
      refine ⟨this.1, this.2.1, List.mem_cons_of_mem _ this.2.2.1, ?_, ?_⟩
      · intro k hk
        rcases List.mem_cons.mp hk with rfl | hk
        · exact Nat.le_trans (Nat.le_succ k)
            (runStepsFrom_executed_lb outcome rest (k + 1) _ j this.2.2.1)
        · exact this.2.2.2.1 k hk
      · intro k hk hkj
        rcases List.mem_cons.mp hk with rfl | hk
        · exact h
        · exact this.2.2.2.2 k hk hkj
    · rw [runStepsFrom_cons_fail outcome i fs s rest h] at hf ⊢
      have hji : i = j ∧ outcome i = o := by
        simpa using hf
      rcases hji with ⟨rfl, rfl⟩
      refine ⟨rfl, h, List.mem_singleton.mpr rfl, ?_, ?_⟩
      · intro k hk; rcases List.mem_singleton.mp hk with rfl; exact Nat.le_refl k
      · intro k hk hkj; rcases List.mem_singleton.mp hk with rfl; exact absurd rfl hkj

theorem firstMissingOutput_none (fs : List String) :
    ∀ outs : List String, firstMissingOutput fs outs = none → ∀ p ∈ outs, p ∈ fs := by
  intro outs
  induction outs with
  | nil => intro _ p hp; simp at hp
  | cons q rest ih =>
    intro h p hp
    by_cases hq : q ∈ fs
    · rw [firstMissingOutput, if_pos hq] at h
      rcases List.mem_cons.mp hp with rfl | hp
      · exact hq
      · exact ih h p hp
    · rw [firstMissingOutput, if_neg hq] at h
      simp at h

theorem firstMissingOutput_some (fs : List String) :
    ∀ (outs : List String) (p : String), firstMissingOutput fs outs = some p →
      p ∈ outs ∧ p ∉ fs := by
  intro outs
  induction outs with
  | nil => intro p h; simp [firstMissingOutput] at h
  | cons q rest ih =>
    intro p h
    by_cases hq : q ∈ fs
    · rw [firstMissingOutput, if_pos hq] at h
      have := ih p h
      exact ⟨List.mem_cons_of_mem _ this.1, this.2⟩
    · rw [firstMissingOutput, if_neg hq] at h
      rcases Option.some.injEq .. ▸ h with rfl
      exact ⟨List.mem_cons_self .., hq⟩

theorem firstMissingParam_of_mem (args : List (String × Value)) :
    ∀ (ps : List ParameterDeclaration) (p : ParameterDeclaration), p ∈ ps →
      lookupStr p.name args = none → p.defaultValue = none →
      ∃ nm, firstMissingParam args ps = some nm := by
  intro ps
  induction ps with
  | nil => intro p hp; simp at hp
  | cons q rest ih =>
    intro p hp h1 h2
    by_cases hq : lookupStr q.name args = none ∧ q.defaultValue = none
    · exact ⟨q.name, by rw [firstMissingParam, if_pos hq]⟩
    · rcases List.mem_cons.mp hp with rfl | hp
      · exact absurd ⟨h1, h2⟩ hq
      · rcases ih p hp h1 h2 with ⟨nm, hnm⟩
        exact ⟨nm, by rw [firstMissingParam, if_neg hq]; exact hnm⟩

theorem map_error_iff {α β : Type} (f : α → β) (x : Except EngineError α)
    (e : EngineError) : Except.map f x = .error e ↔ x = .error e := by
  cases x <;> simp [Except.map]

theorem mapExcept_error_shape {α β : Type} (f : α → Except EngineError β) :
    ∀ (l : List α) (e : EngineError), mapExcept f l = .error e →
      ∃ a ∈ l, f a = .error e := by
  intro l
  induction l with
  | nil => intro e h; simp [mapExcept] at h
  | cons a rest ih =>
    intro e h
    cases ha : f a with
    | ok b =>
      rw [mapExcept, ha] at h
      rcases ih e ((map_error_iff _ _ _).mp h) with ⟨a', ha', he⟩
      exact ⟨a', List.mem_cons_of_mem _ ha', he⟩
    | error e' =>
      rw [mapExcept, ha] at h
      rcases Except.error.injEq .. ▸ h with rfl
      exact ⟨a, List.mem_cons_self .., ha⟩

theorem mapExcept_exists_error {α β : Type} (f : α → Except EngineError β) :
    ∀ (l : List α) (a : α), a ∈ l → (∃ e, f a = .error e) →
      ∃ e', mapExcept f l = .error e' := by
  intro l
  induction l with
  | nil => intro a ha; simp at ha
  | cons b rest ih =>
    intro a ha he
    cases hb : f b with
    | ok v =>
      rcases List.mem_cons.mp ha with rfl | ha
      · rcases he with ⟨e, he⟩; rw [he] at hb; exact absurd hb (by simp)
      · rcases ih a ha he with ⟨e', he'⟩
        exact ⟨e', by rw [mapExcept, hb, he']; rfl⟩
    | error e' => exact ⟨e', by rw [mapExcept, hb]⟩

theorem mapExcept_ok_forall {α β : Type} (f : α → Except EngineError β) :
    ∀ (l : List α) (bs : List β), mapExcept f l = .ok bs →
      ∀ a ∈ l, ∃ b, f a = .ok b := by
  intro l
  induction l with
  | nil => intro bs _ a ha; simp at ha
  | cons c rest ih =>
    intro bs h a ha
    cases hc : f c with
    | ok b =>
      rw [mapExcept, hc] at h
      rcases List.mem_cons.mp ha with rfl | ha
      · exact ⟨b, hc⟩
      · cases hrest : mapExcept f rest with
        | ok bs' => exact ih bs' hrest a ha
        | error e => rw [hrest] at h; exact absurd h (by simp [Except.map])
    | error e => rw [mapExcept, hc] at h; exact absurd h (by simp)

theorem substToks_error_shape (venv : List (String × String)) :
    ∀ (toks : List CmdTok) (e : EngineError), substToks venv toks = .error e →
      ∃ nm, e = .unresolvedReference nm ∧ lookupStr nm venv = none := by
  intro toks
  induction toks with
  | nil => intro e h; simp [substToks] at h
  | cons t rest ih =>
    intro e h
    cases t with
    | lit s =>
      rw [substToks] at h
      exact ih e ((map_error_iff _ _ _).mp h)
    | var n =>
      cases hn : lookupStr n venv with
      | some v =>
        rw [substToks, hn] at h
        exact ih e ((map_error_iff _ _ _).mp h)
      | none =>
        rw [substToks, hn] at h
        rcases Except.error.injEq .. ▸ h with rfl
        exact ⟨n, rfl, hn⟩

theorem substToks_error_exists (venv : List (String × String)) :
    ∀ (toks : List CmdTok) (n : String), CmdTok.var n ∈ toks →
      lookupStr n venv = none → ∃ e, substToks venv toks = .error e := by
  intro toks
  induction toks with
  | nil => intro n hn; simp at hn
  | cons t rest ih =>
    intro n hn hlook
    cases t with
    | lit s =>
      have hmem : CmdTok.var n ∈ rest := by
        rcases List.mem_cons.mp hn with hl | hr
        · exact absurd hl (by simp)
        · exact hr
      rcases ih n hmem hlook with ⟨e, he⟩
      exact ⟨e, by rw [substToks, he]; rfl⟩
    | var m =>
      cases hm : lookupStr m venv with
      | some v =>
        have hmem : CmdTok.var n ∈ rest := by
          rcases List.mem_cons.mp hn with hl | hr
          · rcases CmdTok.var.injEq .. ▸ hl with rfl
            rw [hlook] at hm; exact absurd hm (by simp)
          · exact hr
        rcases ih n hmem hlook with ⟨e, he⟩
        exact ⟨e, by rw [substToks, hm, he]; rfl⟩
      | none => exact ⟨.unresolvedReference m, by rw [substToks, hm]⟩

theorem resolveTRef_error_shape (env : List (String × Value)) :
    ∀ (t : TRef) (e : EngineError), resolveTRef env t = .error e →
      ∃ nm, e = .unresolvedReference nm := by
  intro t e h
  cases t with
  | lit s => simp [resolveTRef] at h
  | pref n =>
    cases hn : lookupStr n env with
    | some v => rw [resolveTRef, hn] at h; exact absurd h (by simp)
    | none =>
      rw [resolveTRef, hn] at h
      rcases Except.error.injEq .. ▸ h with rfl
      exact ⟨n, rfl⟩

theorem buildVarEnv_error_shape (T : WorkflowTemplate) (env : List (String × Value))
    (workerVars : List (String × String)) (e : EngineError)
    (h : buildVarEnv T env workerVars = .error e) :
    ∃ nm, e = .unresolvedReference nm := by
  rw [buildVarEnv] at h
  rcases mapExcept_error_shape _ _ _ ((map_error_iff _ _ _).mp h) with ⟨kv, _, hkv⟩
  exact resolveTRef_error_shape env kv.2 e ((map_error_iff _ _ _).mp hkv)

theorem extract_error_iff (doc : Doc) :
    ∀ cols : List ResultColumn,
      (∃ e, extract cols doc = .error e) ↔
        ∃ c ∈ cols, c.required = true ∧ lookupDoc doc c.locator = none := by
  intro cols
  induction cols with
  | nil => simp [extract]
  | cons c rest ih =>
    cases hl : lookupDoc doc c.locator with
    | some v =>
      constructor
      · rintro ⟨e, he⟩
        rw [extract, hl] at he
        rcases ih.mp ⟨e, (map_error_iff _ _ _).mp he⟩ with ⟨c', hc', hreq, hnone⟩
        exact ⟨c', List.mem_cons_of_mem _ hc', hreq, hnone⟩
      · rintro ⟨c', hc', hreq, hnone⟩
        rcases List.mem_cons.mp hc' with rfl | hc'
        · rw [hl] at hnone; exact absurd hnone (by simp)
        · rcases ih.mpr ⟨c', hc', hreq, hnone⟩ with ⟨e, he⟩
          exact ⟨e, by rw [extract, hl, he]; rfl⟩
    | none =>
      cases hr : c.required with
      | true =>
        constructor
        · intro _; exact ⟨c, List.mem_cons_self .., hr, hl⟩
        · intro _
          exact ⟨.schemaExtraction c.name, by rw [extract, hl, if_pos hr]⟩
      | false =>
        constructor
        · rintro ⟨e, he⟩
          rw [extract, hl, if_neg (by simp [hr])] at he
          rcases ih.mp ⟨e, (map_error_iff _ _ _).mp he⟩ with ⟨c', hc', hreq, hnone⟩
          exact ⟨c', List.mem_cons_of_mem _ hc', hreq, hnone⟩
        · rintro ⟨c', hc', hreq, hnone⟩
          rcases List.mem_cons.mp hc' with rfl | hc'
          · rw [hr] at hreq; exact absurd hreq (by simp)
          · rcases ih.mpr ⟨c', hc', hreq, hnone⟩ with ⟨e, he⟩
            exact ⟨e, by rw [extract, hl, if_neg (by simp [hr]), he]; rfl⟩

theorem extract_error_shape (doc : Doc) :
    ∀ (cols : List ResultColumn) (e : EngineError), extract cols doc = .error e →
      ∃ nm, e = .schemaExtraction nm := by
  intro cols
  induction cols with
  | nil => intro e h; simp [extract] at h
  | cons c rest ih =>
    intro e h
    cases hl : lookupDoc doc c.locator with
    | some v =>
      rw [extract, hl] at h
      exact ih e ((map_error_iff _ _ _).mp h)
    | none =>
      cases hr : c.required with
      | true =>
        rw [extract, hl, if_pos hr] at h
        rcases Except.error.injEq .. ▸ h with rfl
        exact ⟨c.name, rfl⟩
      | false =>
        rw [extract, hl, if_neg (by simp [hr])] at h
        exact ih e ((map_error_iff _ _ _).mp h)

theorem extract_ok_absent (doc : Doc) :
    ∀ (cols : List ResultColumn) (rec : Record), extract cols doc = .ok rec →
      ∀ c ∈ cols, lookupDoc doc c.locator = none →
        (c.name, (none : Option Value)) ∈ rec := by
  intro cols
  induction cols with
  | nil => intro rec _ c hc; simp at hc
  | cons c' rest ih =>
    intro rec h c hc hnone
    cases hl : lookupDoc doc c'.locator with
    | some v =>
      rw [extract, hl] at h
      cases hrest : extract rest doc with
      | ok rec' =>
        rw [hrest] at h
        rcases Except.ok.injEq .. ▸ h with rfl
        rcases List.mem_cons.mp hc with rfl | hc
        · rw [hl] at hnone; exact absurd hnone (by simp)
        · exact List.mem_cons_of_mem _ (ih rec' hrest c hc hnone)
      | error e => rw [hrest] at h; exact absurd h (by simp [Except.map])
    | none =>
      cases hr : c'.required with
      | true => rw [extract, hl, if_pos hr] at h; exact absurd h (by simp)
      | false =>
        rw [extract, hl, if_neg (by simp [hr])] at h
        cases hrest : extract rest doc with
        | ok rec' =>
          rw [hrest] at h
          rcases Except.ok.injEq .. ▸ h with rfl
          rcases List.mem_cons.mp hc with rfl | hc
          · exact List.mem_cons_self ..
          · exact List.mem_cons_of_mem _ (ih rec' hrest c hc hnone)
        | error e => rw [hrest] at h; exact absurd h (by simp [Except.map])

instance : Batteries.TransCmp cmpValue := by
  unfold cmpValue
  infer_instance

instance : Batteries.OrientedCmp cmpOptValue where
  symm x y := by
    cases x with
    | none =>
      cases y with
      | none => rfl
      | some b => rfl
    | some a =>
      cases y with
      | none => rfl
      | some b =>
        exact (Batteries.OrientedCmp.symm a b : (cmpValue a b).swap = cmpValue b a)

instance : Batteries.TransCmp cmpOptValue where
  le_trans := by
    intro x y z h1 h2
    cases x with
    | none =>
      cases z with
      | none => simp [cmpOptValue]
      | some c => simp [cmpOptValue]
    | some a =>
      cases y with
      | none => exact absurd rfl h1
      | some b =>
        cases z with
        | none => exact absurd rfl h2
        | some c =>
          have h1' : cmpValue a b ≠ .gt := h1
          have h2' : cmpValue b c ≠ .gt := h2
          have h3 : cmpValue a c ≠ .gt := Batteries.TransCmp.le_trans h1' h2'
          exact h3

theorem cmpOptValue_swap (u v : Option Value) :
    (cmpOptValue u v).swap = cmpOptValue v u :=
  Batteries.OrientedCmp.symm u v

theorem colCmp_swap (c : SortCol) (r1 r2 : Record) :
    (colCmp c r1 r2).swap = colCmp c r2 r1 := by
  rw [colCmp, colCmp]
  by_cases h : c.sortDesc <;> simp [h, cmpOptValue_swap]

theorem colCmp_congr_left (c : SortCol) {r1 r2 : Record}
    (h : colCmp c r1 r2 = .eq) (r3 : Record) :
    colCmp c r1 r3 = colCmp c r2 r3 := by
  rw [colCmp] at h ⊢
  rw [colCmp]
  by_cases hd : c.sortDesc <;> simp [hd] at h ⊢
  · exact Batteries.TransCmp.cmp_congr_right
      (Batteries.OrientedCmp.cmp_eq_eq_symm.mp h)
  · exact Batteries.TransCmp.cmp_congr_left h

theorem colCmp_congr_right (c : SortCol) {r2 r3 : Record}
    (h : colCmp c r2 r3 = .eq) (r1 : Record) :
    colCmp c r1 r2 = colCmp c r1 r3 := by
  rw [colCmp] at h ⊢
  rw [colCmp]
  by_cases hd : c.sortDesc <;> simp [hd] at h ⊢
  · exact Batteries.TransCmp.cmp_congr_left
      (Batteries.OrientedCmp.cmp_eq_eq_symm.mp h)
  · exact Batteries.TransCmp.cmp_congr_right h

theorem colCmp_lt_trans (c : SortCol) {r1 r2 r3 : Record}
    (h1 : colCmp c r1 r2 = .lt) (h2 : colCmp c r2 r3 = .lt) :
    colCmp c r1 r3 = .lt := by
  rw [colCmp] at h1 h2 ⊢
  by_cases hd : c.sortDesc <;> simp [hd] at h1 h2 ⊢
  · exact Batteries.TransCmp.lt_trans h2 h1
  · exact Batteries.TransCmp.lt_trans h1 h2

theorem cmpRecords_cons (c : SortCol) (rest : List SortCol) (r1 r2 : Record) :
    cmpRecords (c :: rest) r1 r2 = (colCmp c r1 r2).then (cmpRecords rest r1 r2) :=
  rfl

theorem cmpRecords_swap (cols : List SortCol) (r1 r2 : Record) :
    (cmpRecords cols r1 r2).swap = cmpRecords cols r2 r1 := by
  induction cols with
  | nil => rfl
  | cons c rest ih =>
    rw [cmpRecords_cons, cmpRecords_cons, Ordering.swap_then, colCmp_swap, ih]

theorem cmpRecords_congr_left (cols : List SortCol) {r1 r2 : Record}
    (h : cmpRecords cols r1 r2 = .eq) (r3 : Record) :
    cmpRecords cols r1 r3 = cmpRecords cols r2 r3 := by
  induction cols with
  | nil => rfl
  | cons c rest ih =>
    rw [cmpRecords_cons] at h
    rcases Ordering.then_eq_eq.mp h with ⟨h1, h2⟩
    rw [cmpRecords_cons, cmpRecords_cons, colCmp_congr_left c h1 r3, ih h2]

theorem cmpRecords_congr_right (cols : List SortCol) {r2 r3 : Record}
    (h : cmpRecords cols r2 r3 = .eq) (r1 : Record) :
    cmpRecords cols r1 r2 = cmpRecords cols r1 r3 := by
  have h' : cmpRecords cols r3 r2 = .eq := by
    rw [← cmpRecords_swap, h]; rfl
  calc cmpRecords cols r1 r2 = (cmpRecords cols r2 r1).swap := by
        rw [cmpRecords_swap]
    _ = (cmpRecords cols r3 r1).swap := by rw [cmpRecords_congr_left cols h' r1]
    _ = cmpRecords cols r1 r3 := by rw [cmpRecords_swap]

theorem cmpRecords_lt_trans (cols : List SortCol) {r1 r2 r3 : Record}
    (h1 : cmpRecords cols r1 r2 = .lt) (h2 : cmpRecords cols r2 r3 = .lt) :
    cmpRecords cols r1 r3 = .lt := by
  induction cols with
  | nil => simp [cmpRecords] at h1
  | cons c rest ih =>
    rw [cmpRecords_cons] at h1 h2 ⊢
    rcases Ordering.then_eq_lt.mp h1 with hA | ⟨hA, hB⟩ <;>
      rcases Ordering.then_eq_lt.mp h2 with hC | ⟨hC, hD⟩
    · exact Ordering.then_eq_lt.mpr (Or.inl (colCmp_lt_trans c hA hC))
    · refine Ordering.then_eq_lt.mpr (Or.inl ?_)
      rw [colCmp_congr_right c hC r1] at hA
      exact hA
    · refine Ordering.then_eq_lt.mpr (Or.inl ?_)
      rw [← colCmp_congr_left c hA r3] at hC
      exact hC
    · refine Ordering.then_eq_lt.mpr (Or.inr ⟨?_, ih hB hD⟩)
      rw [colCmp_congr_left c hA r3]
      exact hC

theorem cmpRecords_le_trans (cols : List SortCol) {r1 r2 r3 : Record}
    (h1 : cmpRecords cols r1 r2 ≠ .gt) (h2 : cmpRecords cols r2 r3 ≠ .gt) :
    cmpRecords cols r1 r3 ≠ .gt := by
  cases e1 : cmpRecords cols r1 r2 with
  | gt => exact absurd e1 h1
  | eq => rw [cmpRecords_congr_left cols e1 r3]; exact h2
  | lt =>
    cases e2 : cmpRecords cols r2 r3 with
    | gt => exact absurd e2 h2
    | eq =>
      rw [← cmpRecords_congr_right cols e2 r1, e1]
      simp
    | lt =>
      rw [cmpRecords_lt_trans cols e1 e2]
      simp

theorem cmpRecords_total (cols : List SortCol) (r1 r2 : Record) :
    cmpRecords cols r1 r2 ≠ .gt ∨ cmpRecords cols r2 r1 ≠ .gt := by
  cases e : cmpRecords cols r1 r2 with
  | gt =>
    refine Or.inr ?_
    rw [← cmpRecords_swap, e]
    decide
  | eq => exact Or.inl (by decide)
  | lt => exact Or.inl (by decide)

theorem then_ne_gt_left {x y : Ordering} (h : x.then y ≠ .gt) : x ≠ .gt := by
  intro hx
  rw [hx] at h
  exact h rfl

theorem cmpRecords_append (pre l : List SortCol) (r1 r2 : Record) :
    cmpRecords (pre ++ l) r1 r2 = (cmpRecords pre r1 r2).then (cmpRecords l r1 r2) := by
  induction pre with
  | nil => rfl
  | cons c rest ih =>
    rw [List.cons_append, cmpRecords_cons, cmpRecords_cons, ih]
    cases colCmp c r1 r2 <;> rfl

theorem rank_sorted (cols : List SortCol) (rs : List Record) :
    List.Sorted (rankRel cols) (rank cols rs) := by
  haveI ht : IsTotal Record (rankRel cols) := ⟨fun a b => cmpRecords_total cols a b⟩
  haveI htr : IsTrans Record (rankRel cols) :=
    ⟨fun a b c h1 h2 => cmpRecords_le_trans cols h1 h2⟩
  exact List.sorted_insertionSort (rankRel cols) rs

theorem startRun_ok (T : WorkflowTemplate) (args : List (String × Value))
    (wv : List (String × String)) (outcome : Nat → StepOutcome) (r : RunResult) :
    startRun T args wv outcome = .ok r ↔
      ∃ ew, bindAndExpand T args wv = .ok ew ∧ r = finishRun T outcome ew := by
  rw [startRun]
  cases h : bindAndExpand T args wv <;> simp [Except.map, eq_comm]

theorem bindAndExpand_ok_inv (T : WorkflowTemplate) (args : List (String × Value))
    (wv : List (String × String)) (ew : ExecutableWorkflow)
    (h : bindAndExpand T args wv = .ok ew) :
    ∀ env, Flowserv.bind T args = .ok env → expand T env wv = .ok ew := by
  intro env henv
  rw [bindAndExpand, henv] at h
  exact h

theorem finishRun_some (T : WorkflowTemplate) (outcome : Nat → StepOutcome)
    (ew : ExecutableWorkflow) (io : Nat × StepOutcome)
    (hf : (runStepsFrom outcome 0 ew.inputFiles ew.steps).failure = some io) :
    finishRun T outcome ew =
      { state := .error (.stepExecution io.2.exitCode io.2.stdout io.2.stderr),
        executed := (runStepsFrom outcome 0 ew.inputFiles ew.steps).executed,
        fs := (runStepsFrom outcome 0 ew.inputFiles ew.steps).fs, files := [],
        warnings := [], result := none } := by
  simp only [finishRun, hf]

theorem finishRun_missing (T : WorkflowTemplate) (outcome : Nat → StepOutcome)
    (ew : ExecutableWorkflow) (p : String)
    (hf : (runStepsFrom outcome 0 ew.inputFiles ew.steps).failure = none)
    (hm : firstMissingOutput (runStepsFrom outcome 0 ew.inputFiles ew.steps).fs
        T.outputs = some p) :
    finishRun T outcome ew =
      { state := .error (.missingOutput p),
        executed := (runStepsFrom outcome 0 ew.inputFiles ew.steps).executed,
        fs := (runStepsFrom outcome 0 ew.inputFiles ew.steps).fs, files := [],
        warnings := [], result := none } := by
  simp only [finishRun, hf, hm]

theorem finishRun_success (T : WorkflowTemplate) (outcome : Nat → StepOutcome)
    (ew : ExecutableWorkflow)
    (hf : (runStepsFrom outcome 0 ew.inputFiles ew.steps).failure = none)
    (hm : firstMissingOutput (runStepsFrom outcome 0 ew.inputFiles ew.steps).fs
        T.outputs = none) :
    finishRun T outcome ew =
      { state := .success,
        executed := (runStepsFrom outcome 0 ew.inputFiles ew.steps).executed,
        fs := (runStepsFrom outcome 0 ew.inputFiles ew.steps).fs,
        files := T.outputs, warnings := [], result := none } := by
  simp only [finishRun, hf, hm]

/-- Claim C1: for every template, argument set and worker-variable table,
bind-then-expand is deterministic and idempotent — its result does not
depend on the shared engine state (no hidden counter or random state
influences it), and re-invoking it after a previous invocation yields the
identical (byte-identical) executable step sequence. -/
theorem bind_expand_deterministic (st1 st2 : EngineState) (T : WorkflowTemplate)
    (args : List (String × Value)) (wv : List (String × String)) :
    (bindAndExpandS st1 T args wv).1 = (bindAndExpandS st2 T args wv).1 ∧
    (bindAndExpandS ((bindAndExpandS st1 T args wv).2) T args wv).1 =
      (bindAndExpandS st1 T args wv).1 ∧
    ∀ ew1 ew2, (bindAndExpandS st1 T args wv).1 = .ok ew1 →
      (bindAndExpandS st2 T args wv).1 = .ok ew2 →
      ew1.steps = ew2.steps :=
  ⟨rfl, rfl, fun ew1 ew2 h1 h2 => by
    have h3 : (Except.ok ew1 : Except EngineError ExecutableWorkflow) = .ok ew2 :=
      h1.symm.trans h2
    rcases Except.ok.injEq .. ▸ h3 with rfl
    rfl⟩

/-- Claim C2: a run reaches terminal state `SUCCESS` only if every executed
step exited zero, every step of the expanded workflow executed, and every
declared output exists in the working directory and appears in the run's
file listing; if all executed steps exited zero but the run is not
`SUCCESS`, some declared output is missing and the terminal state is
`ERROR (MissingOutputError)`. -/
theorem run_success_requires_outputs (T : WorkflowTemplate)
    (args : List (String × Value)) (wv : List (String × String))
    (outcome : Nat → StepOutcome) (r : RunResult)
    (h : startRun T args wv outcome = .ok r) :
    (r.state = RunState.success →
      (∀ j ∈ r.executed, (outcome j).exitCode = 0) ∧
      (∀ env ew, Flowserv.bind T args = .ok env → expand T env wv = .ok ew →
        r.executed.length = ew.steps.length) ∧
      (∀ p ∈ T.outputs, p ∈ r.fs ∧ p ∈ r.files)) ∧
    ((∀ j ∈ r.executed, (outcome j).exitCode = 0) → r.state ≠ RunState.success →
      ∃ p, p ∈ T.outputs ∧ p ∉ r.fs ∧
        r.state = RunState.error (.missingOutput p)) := by
  rcases (startRun_ok T args wv outcome r).mp h with ⟨ew, hbe, rfl⟩
  cases hf : (runStepsFrom outcome 0 ew.inputFiles ew.steps).failure with
  | some io =>
    rw [finishRun_some T outcome ew io hf]
    constructor
    · intro hs; exact absurd hs (by simp)
    · intro hall _
      rcases runStepsFrom_failure_some outcome ew.steps 0 ew.inputFiles io.1 io.2
        (by rw [hf]) with ⟨_, hne, hmem, _, _⟩
      exact absurd (hall io.1 hmem) hne
  | none =>
    cases hm : firstMissingOutput (runStepsFrom outcome 0 ew.inputFiles ew.steps).fs
        T.outputs with
    | some p =>
      rw [finishRun_missing T outcome ew p hf hm]
      constructor
      · intro hs; exact absurd hs (by simp)
      · intro _ _
        rcases firstMissingOutput_some _ T.outputs p hm with ⟨hmem, hnot⟩
        exact ⟨p, hmem, hnot, rfl⟩
    | none =>
      rw [finishRun_success T outcome ew hf hm]
      constructor
      · intro _
        refine ⟨(runStepsFrom_failure_none outcome ew.steps 0 ew.inputFiles hf).1,
          fun env ew' henv hexp => ?_, fun p hp => ?_⟩
        · have := bindAndExpand_ok_inv T args wv ew hbe env henv
          rw [this] at hexp
          rcases Except.ok.injEq .. ▸ hexp with rfl
          exact (runStepsFrom_failure_none outcome ew.steps 0 ew.inputFiles hf).2
        · exact ⟨firstMissingOutput_none _ T.outputs hm p hp, hp⟩
      · intro _ hns; exact absurd rfl hns

/-- Claim C9: a run that reached `SUCCESS` lists exactly the files declared
in the template's outputs — no additional working-directory files — in the
template's declaration order. -/
theorem success_files_listing (T : WorkflowTemplate)
    (args : List (String × Value)) (wv : List (String × String))
    (outcome : Nat → StepOutcome) (r : RunResult)
    (h : startRun T args wv outcome = .ok r) (hs : r.state = RunState.success) :
    r.files = T.outputs := by
  rcases (startRun_ok T args wv outcome r).mp h with ⟨ew, _, rfl⟩
  cases hf : (runStepsFrom outcome 0 ew.inputFiles ew.steps).failure with
  | some io =>
    rw [finishRun_some T outcome ew io hf] at hs
    exact absurd hs (by simp)
  | none =>
    cases hm : firstMissingOutput (runStepsFrom outcome 0 ew.inputFiles ew.steps).fs
        T.outputs with
    | some p =>
      rw [finishRun_missing T outcome ew p hf hm] at hs
      exact absurd hs (by simp)
    | none =>
      rw [finishRun_success T outcome ew hf hm]

/-- Claim C3: when an executed step's worker reported a non-zero exit code,
the run's terminal state is `ERROR (StepExecutionError)` with that step's
stdout/stderr preserved, no later step executed, no step executed more than
once (no automatic retry), and the files produced by the executed steps
remain in the working directory (no rollback). -/
theorem step_failure_halts_run (T : WorkflowTemplate)
    (args : List (String × Value)) (wv : List (String × String))
    (outcome : Nat → StepOutcome) (r : RunResult) (i : Nat)
    (h : startRun T args wv outcome = .ok r)
    (hi : i ∈ r.executed) (hx : (outcome i).exitCode ≠ 0) :
    r.state = RunState.error
      (.stepExecution (outcome i).exitCode (outcome i).stdout (outcome i).stderr) ∧
    (∀ j ∈ r.executed, j ≤ i) ∧
    r.executed.Nodup ∧
    (∀ j ∈ r.executed, (outcome j).produced ⊆ r.fs) := by
  rcases (startRun_ok T args wv outcome r).mp h with ⟨ew, _, rfl⟩
  cases hf : (runStepsFrom outcome 0 ew.inputFiles ew.steps).failure with
  | some io =>
    rw [finishRun_some T outcome ew io hf] at hi ⊢
    rcases runStepsFrom_failure_some outcome ew.steps 0 ew.inputFiles io.1 io.2
      (by rw [hf]) with ⟨ho, hne, hmem, hub, hzero⟩
    have hii : i = io.1 := by
      by_contra hne'
      exact hx (hzero i hi hne')
    subst hii
    refine ⟨?_, hub, runStepsFrom_nodup outcome ew.steps 0 ew.inputFiles, ?_⟩
    · rw [← ho]
    · exact runStepsFrom_produced outcome ew.steps 0 ew.inputFiles
  | none =>
    rcases runStepsFrom_failure_none outcome ew.steps 0 ew.inputFiles hf with ⟨hall, _⟩
    cases hm : firstMissingOutput (runStepsFrom outcome 0 ew.inputFiles ew.steps).fs
        T.outputs with
    | some p =>
      rw [finishRun_missing T outcome ew p hf hm] at hi
      exact absurd (hall i hi) hx
    | none =>
      rw [finishRun_success T outcome ew hf hm] at hi
      exact absurd (hall i hi) hx

/-- Claim C4: when a declared parameter is absent from the user arguments
and has no default value (in particular it is not an actor parameter with a
template-default), `bind` fails with `MissingParameterError`; the failure
is raised to the caller before any step executes and no partial run state
is left behind (start-run returns the error and no run result exists). -/
theorem missing_parameter_rejected (T : WorkflowTemplate)
    (args : List (String × Value)) (wv : List (String × String))
    (outcome : Nat → StepOutcome) (p : ParameterDeclaration)
    (hp : p ∈ T.parameters)
    (habs : lookupStr p.name args = none)
    (hdef : p.defaultValue = none) :
    (∃ nm, Flowserv.bind T args = .error (.missingParameter nm)) ∧
    (∃ nm, startRun T args wv outcome = .error (.missingParameter nm)) ∧
    stepsExecuted T args wv outcome = [] := by
  rcases firstMissingParam_of_mem args T.parameters p hp habs hdef with ⟨nm, hnm⟩
  have hbind : Flowserv.bind T args = .error (.missingParameter nm) := by
    rw [Flowserv.bind, hnm]
  have hrun : startRun T args wv outcome = .error (.missingParameter nm) := by
    rw [startRun, bindAndExpand, hbind]
    rfl
  exact ⟨⟨nm, hbind⟩, ⟨nm, hrun⟩, by rw [stepsExecuted, hrun]⟩

/-- Claim C5: when a step of the (slot-resolved) workflow contains a
command-variable reference `${name}` that matches no entry of the
command-variable environment, `expand` fails with
`UnresolvedReferenceError` and the run does not start: start-run returns
the error synchronously and no step executes. -/
theorem unresolved_reference_rejected (T : WorkflowTemplate)
    (args : List (String × Value)) (wv : List (String × String))
    (outcome : Nat → StepOutcome) (env : List (String × Value))
    (steps : List Step) (s : Step) (cmd : List CmdTok) (n : String)
    (hbind : Flowserv.bind T args = .ok env)
    (hslots : mapExcept (resolveSlot env) T.steps = .ok steps)
    (hs : s ∈ steps) (hc : cmd ∈ s.commands) (hn : CmdTok.var n ∈ cmd)
    (hun : ∀ venv, buildVarEnv T env wv = .ok venv → lookupStr n venv = none) :
    (∃ nm, expand T env wv = .error (.unresolvedReference nm)) ∧
    (∃ nm, startRun T args wv outcome = .error (.unresolvedReference nm)) ∧
    stepsExecuted T args wv outcome = [] := by
  have hexp : ∃ nm, expand T env wv = .error (.unresolvedReference nm) := by
    cases hb : buildVarEnv T env wv with
    | error e =>
      rcases buildVarEnv_error_shape T env wv e hb with ⟨nm, rfl⟩
      exact ⟨nm, by simp only [expand, hslots, hb]⟩
    | ok venv =>
      have hstep : ∃ e, expandStep venv s = .error e := by
        rcases mapExcept_exists_error (substToks venv) s.commands cmd hc
          (substToks_error_exists venv cmd n hn (hun venv hb)) with ⟨e', he'⟩
        exact ⟨e', by rw [expandStep, he']; rfl⟩
      rcases mapExcept_exists_error (expandStep venv) steps s hs hstep with ⟨e2, he2⟩
      rcases mapExcept_error_shape (expandStep venv) steps e2 he2 with ⟨s', _, hs'⟩
      have hsub : mapExcept (substToks venv) s'.commands = .error e2 := by
        rw [expandStep] at hs'
        exact (map_error_iff _ _ _).mp hs'
      rcases mapExcept_error_shape (substToks venv) s'.commands e2 hsub
        with ⟨cmd', _, hcmd'⟩
      rcases substToks_error_shape venv cmd' e2 hcmd' with ⟨nm, rfl, _⟩
      exact ⟨nm, by simp only [expand, hslots, hb, he2]⟩
  rcases hexp with ⟨nm, hexpnm⟩
  have hrun : startRun T args wv outcome = .error (.unresolvedReference nm) := by
    simp only [startRun, bindAndExpand, hbind, hexpnm, Except.map]
  exact ⟨⟨nm, hexpnm⟩, ⟨nm, hrun⟩, by rw [stepsExecuted, hrun]⟩

/-- Claim C6: one controller step for a workflow with a configured
post-processing template never mutates the recorded state of any run
(in particular of the dependency runs and of the triggering run, whose
terminal state it therefore never blocks), and the post-processing run
starts only once every run of its dependency set has reached a terminal
state. -/
theorem postproc_trigger (s : SysState) (ig : Bool) (T : WorkflowTemplate)
    (args : List (String × Value)) (wv : List (String × String))
    (outcome : Nat → StepOutcome) :
    (postprocStep s ig T args wv outcome).runs = s.runs ∧
    ((postprocStep s ig T args wv outcome).postprocStarted = true →
      s.postprocStarted = false → depsTerminal s = true) := by
  rw [postprocStep]
  by_cases hig : ig
  · simp only [if_pos hig]
    exact ⟨by simp, fun h1 h2 => absurd h1 (by rw [h2]; simp)⟩
  · simp only [if_neg hig]
    by_cases hst : s.postprocStarted
    · simp only [if_pos hst]
      exact ⟨by simp, fun _ h2 => absurd hst (by rw [h2]; simp)⟩
    · simp only [if_neg hst]
      by_cases hdeps : depsTerminal s
      · simp only [if_pos hdeps]
        cases hr : startRun T args wv outcome with
        | ok r => exact ⟨by simp, fun _ _ => hdeps⟩
        | error e => exact ⟨by simp, fun _ _ => hdeps⟩
      · simp only [if_neg hdeps]
        exact ⟨by simp, fun h1 _ => absurd h1 hst⟩

/-- Claim C7: for a successful run, result extraction fails (with a
`SchemaExtractionError`) exactly when some required column's locator is
missing from the result document; a missing locator on an optional column
yields the explicit absent value in the extracted record; and attaching the
extraction outcome to the run never changes the run's `SUCCESS` state — an
extraction failure is recorded as a run-level warning. -/
theorem extraction_failure_semantics (cols : List ResultColumn) (doc : Doc)
    (r : RunResult) (hsucc : r.state = RunState.success) :
    ((∃ e, extract cols doc = .error e) ↔
      ∃ c ∈ cols, c.required = true ∧ lookupDoc doc c.locator = none) ∧
    (∀ e, extract cols doc = .error e → ∃ nm, e = .schemaExtraction nm) ∧
    (∀ rec, extract cols doc = .ok rec → ∀ c ∈ cols,
      lookupDoc doc c.locator = none → (c.name, (none : Option Value)) ∈ rec) ∧
    (applyExtraction r cols doc).state = RunState.success ∧
    (∀ e, extract cols doc = .error e →
      (applyExtraction r cols doc).warnings = r.warnings ++ [e]) := by
  refine ⟨extract_error_iff doc cols, extract_error_shape doc cols,
    extract_ok_absent doc cols, ?_, ?_⟩
  · rw [applyExtraction, if_pos hsucc]
    cases hx : extract cols doc with
    | ok rec => exact hsucc
    | error e => exact hsucc
  · intro e he
    rw [applyExtraction, if_pos hsucc, he]

/-- Claim C8: the produced ranking of extracted result records is sorted by
the schema's declared sort columns: it is lexicographically sorted (first
column primary, each subsequent column breaking ties among records equal on
all earlier columns, with each column's declared direction respected), and
in particular, when the first declared column is descending, the ranking is
non-increasing in that column's value. -/
theorem result_ranking_order (cols : List SortCol) (rs : List Record) :
    List.Sorted (rankRel cols) (rank cols rs) ∧
    (∀ c rest, cols = c :: rest → c.sortDesc = true →
      List.Pairwise (fun r1 r2 =>
        cmpOptValue (getCol r1 c.name) (getCol r2 c.name) ≠ Ordering.lt)
        (rank cols rs)) ∧
    (∀ pre c' post, cols = pre ++ c' :: post →
      List.Pairwise (fun r1 r2 => cmpRecords pre r1 r2 = Ordering.eq →
        colCmp c' r1 r2 ≠ Ordering.gt) (rank cols rs)) := by
  refine ⟨rank_sorted cols rs, ?_, ?_⟩
  · intro c rest hcols hdesc
    refine List.Pairwise.imp ?_ (rank_sorted cols rs)
    intro r1 r2 hle
    rw [hcols] at hle
    have hhead : colCmp c r1 r2 ≠ .gt := then_ne_gt_left hle
    rw [colCmp, if_pos hdesc] at hhead
    intro hlt
    rw [← cmpOptValue_swap (getCol r2 c.name) (getCol r1 c.name)] at hlt
    cases hcv : cmpOptValue (getCol r2 c.name) (getCol r1 c.name) with
    | lt => rw [hcv] at hlt; exact absurd hlt (by decide)
    | eq => rw [hcv] at hlt; exact absurd hlt (by decide)
    | gt => exact hhead hcv
  · intro pre c' post hcols
    refine List.Pairwise.imp ?_ (rank_sorted cols rs)
    intro r1 r2 hle hpre
    rw [hcols] at hle
    simp only [rankRel] at hle
    rw [cmpRecords_append, hpre] at hle
    have : cmpRecords (c' :: post) r1 r2 ≠ .gt := hle
    rw [cmpRecords_cons] at this
    exact then_ne_gt_left this

/-- Claim C10: a parameter declared with data type `int` accepts a
non-integer numeric argument (the notebook's `sleeptime = 0.2`) by
coercion rather than failing with `TypeMismatchError`: binding succeeds,
and a run started with such arguments executes and reaches `SUCCESS`. -/
theorem int_param_accepts_float :
    coerce Dtype.int (Value.vfloat (mkRat 1 5)) = some (Value.vint 0) ∧
    (∀ nm, Flowserv.bind helloworld hwArgsFloat ≠ .error (.typeMismatch nm)) ∧
    (∃ env, Flowserv.bind helloworld hwArgsFloat = .ok env) ∧
    (∃ r, startRun helloworld hwArgsFloat hwVars hwOutcome = .ok r ∧
      r.state = RunState.success ∧ r.executed = [0]) := by
  refine ⟨by decide, fun nm h => ?_, ⟨_, rfl⟩, ⟨_, rfl, by decide, by decide⟩⟩
  rw [show Flowserv.bind helloworld hwArgsFloat =
    .ok [("names", Value.vfile "data/names.txt"), ("sleeptime", Value.vint 0),
      ("greeting", Value.vstr "Hey there")] from rfl] at h
  exact absurd h (by simp)

/-- The run handle of the notebook's successful Hello-World run. -/
def hwRun : RunResult :=
  match startRun helloworld hwArgs hwVars hwOutcome with
  | .ok r => r
  | .error _ =>
    { state := .pending, executed := [], fs := [], files := [],
      warnings := [], result := none }

/-- The run handle of a Hello-World run whose step fails. -/
def hwFailRun : RunResult :=
  match startRun helloworld hwArgs hwVars hwFailOutcome with
  | .ok r => r
  | .error _ =>
    { state := .pending, executed := [], fs := [], files := [],
      warnings := [], result := none }

/-- Hello-World arguments with the required `names` file parameter absent. -/
def hwArgsMissing : List (String × Value) :=
  [ ("greeting", .vstr "Hey there"), ("sleeptime", .vint 2) ]

/-- A defective template whose single command references the undeclared
command variable `${oops}`. -/
def badTemplate : WorkflowTemplate where
  steps := [ .fixed { environment := "python:3.7", commands := [[ .var "oops" ]] } ]
  inputFiles := []
  varBindings := []
  parameters := []
  outputs := []

/-- A controller state with two finished dependency runs and a pending
post-processing run. -/
def sysS0 : SysState :=
  { runs := [ { runId := 0, state := .success },
              { runId := 1, state := .error (.stepExecution 1 [] []) } ],
    postprocDeps := [0, 1], postprocStarted := false, postprocRun := none }

/-- A result document for the Hello-World schema in which the optional
`max_line` column's locator is missing. -/
def hwDoc : Doc :=
  .node [ ("avg_count", .leaf (.vfloat (mkRat 7 2))),
          ("max_len", .leaf (.vfloat 9)) ]

/-- The Hello-World template's result schema columns. -/
def hwCols : List ResultColumn :=
  (helloworld.resultSchema.map ResultSchema.schema).getD []

/-- Extracted result records of three competing runs. -/
def hwRecords : List Record :=
  [ [ ("mean_accuracy", some (Value.vfloat (mkRat 1 2))),
      ("mean_auc", some (Value.vfloat (mkRat 3 4))) ],
    [ ("mean_accuracy", some (Value.vfloat (mkRat 9 10))),
      ("mean_auc", some (Value.vfloat (mkRat 1 2))) ],
    [ ("mean_accuracy", some (Value.vfloat (mkRat 9 10))),
      ("mean_auc", some (Value.vfloat (mkRat 2 3))) ] ]

/-- Witness for C1 at the Hello-World template: two invocations through
different engine states agree. -/
theorem bind_expand_deterministic_witness :
    (bindAndExpandS ⟨0⟩ helloworld hwArgs hwVars).1 =
      (bindAndExpandS ⟨5⟩ helloworld hwArgs hwVars).1 :=
  (bind_expand_deterministic ⟨0⟩ ⟨5⟩ helloworld hwArgs hwVars).1

/-- Witness for C2 at the notebook's successful Hello-World run. -/
theorem run_success_requires_outputs_witness :
    hwRun.state = RunState.success ∧
    (∀ j ∈ hwRun.executed, (hwOutcome j).exitCode = 0) ∧
    (∀ p ∈ helloworld.outputs, p ∈ hwRun.fs ∧ p ∈ hwRun.files) := by
  have h := run_success_requires_outputs helloworld hwArgs hwVars hwOutcome hwRun rfl
  have hs : hwRun.state = RunState.success := by decide
  exact ⟨hs, (h.1 hs).1, (h.1 hs).2.2⟩

/-- Witness for C3 at a Hello-World run whose step exits with code 1. -/
theorem step_failure_halts_run_witness :
    hwFailRun.state = RunState.error (.stepExecution 1 ["traceback"] ["boom"]) ∧
    (∀ j ∈ hwFailRun.executed, j ≤ 0) ∧
    hwFailRun.executed.Nodup ∧
    (∀ j ∈ hwFailRun.executed, (hwFailOutcome j).produced ⊆ hwFailRun.fs) := by
  have h := step_failure_halts_run helloworld hwArgs hwVars hwFailOutcome hwFailRun 0
    rfl (by decide) (by decide)
  exact ⟨h.1, h.2.1, h.2.2.1, h.2.2.2⟩

/-- Witness for C4: starting Hello-World without the `names` argument is
rejected with `MissingParameterError` and no step executes. -/
theorem missing_parameter_rejected_witness :
    (∃ nm, Flowserv.bind helloworld hwArgsMissing = .error (.missingParameter nm)) ∧
    stepsExecuted helloworld hwArgsMissing hwVars hwOutcome = [] := by
  have h := missing_parameter_rejected helloworld hwArgsMissing hwVars hwOutcome
    { name := "names", label := "Input file", dtype := .file,
      target := some "data/names.txt" }
    (by decide) (by decide) (by decide)
  exact ⟨h.1, h.2.2⟩

/-- Witness for C5: expanding a template with an undeclared `${oops}`
reference fails with `UnresolvedReferenceError` and no step executes. -/
theorem unresolved_reference_rejected_witness :
    (∃ nm, expand badTemplate [] [] = .error (.unresolvedReference nm)) ∧
    (∃ nm, startRun badTemplate [] [] hwOutcome = .error (.unresolvedReference nm)) ∧
    stepsExecuted badTemplate [] [] hwOutcome = [] := by
  have h := unresolved_reference_rejected badTemplate [] [] hwOutcome []
    [ { environment := "python:3.7", commands := [[ .var "oops" ]] } ]
    { environment := "python:3.7", commands := [[ .var "oops" ]] }
    [ .var "oops" ] "oops" rfl rfl (by decide) (by decide) (by decide)
    (fun venv hv => by
      have h2 := Except.ok.inj
        (show (Except.ok [] : Except EngineError (List (String × String))) = .ok venv
          from hv)
      rw [← h2]
      rfl)
  exact h

/-- Witness for C6 at a state whose two dependency runs are terminal. -/
theorem postproc_trigger_witness :
    (postprocStep sysS0 false helloworld hwArgs hwVars hwOutcome).runs = sysS0.runs ∧
    depsTerminal sysS0 = true := by
  have h := postproc_trigger sysS0 false helloworld hwArgs hwVars hwOutcome
  exact ⟨h.1, h.2 (by decide) (by decide)⟩

/-- Witness for C7 at the Hello-World schema and a result document missing
only the optional `max_line` locator. -/
theorem extraction_failure_semantics_witness :
    (applyExtraction hwRun hwCols hwDoc).state = RunState.success ∧
    (∃ rec, extract hwCols hwDoc = .ok rec ∧
      ("max_line", (none : Option Value)) ∈ rec) := by
  have h := extraction_failure_semantics hwCols hwDoc hwRun (by decide)
  cases hx : extract hwCols hwDoc with
  | ok rec =>
    refine ⟨h.2.2.2.1, rec, rfl, ?_⟩
    exact h.2.2.1 rec hx
      { name := "max_line", label := "Longest Output Line", dtype := .string,
        locator := ["max_line"], required := false }
      (by decide) (by decide)
  | error e =>
    exact absurd (h.1.mp ⟨e, hx⟩) (by decide)

/-- Witness for C8 at three concrete result records under the top-tagger
ordering rule. -/
theorem result_ranking_order_witness :
    List.Sorted (rankRel taggerOrderBy) (rank taggerOrderBy hwRecords) ∧
    List.Pairwise (fun r1 r2 =>
      cmpOptValue (getCol r1 "mean_accuracy") (getCol r2 "mean_accuracy") ≠
        Ordering.lt) (rank taggerOrderBy hwRecords) := by
  have h := result_ranking_order taggerOrderBy hwRecords
  exact ⟨h.1, h.2.1 { name := "mean_accuracy", sortDesc := true }
    [ { name := "mean_auc", sortDesc := true } ] rfl rfl⟩

/-- Witness for C9 at the notebook's successful Hello-World run: the file
listing is exactly the two declared outputs, in declaration order. -/
theorem success_files_listing_witness :
    hwRun.files = helloworld.outputs ∧
    hwRun.files = [ "results/greetings.txt", "results/analytics.json" ] := by
  have h := success_files_listing helloworld hwArgs hwVars hwOutcome hwRun rfl (by decide)
  exact ⟨h, by decide⟩

end Flowserv
